import Mathlib

/-!
# Verification of the `T-u-ring.py` Turing machine simulator

Shallow embedding of `src/T-u-ring.py` (class `TuringMachine` with inner
class `Action`).  Python strings are modelled as `List Char` (a tape cell,
dictionary key or parsed field is a Python string, possibly empty);
Python `dict` / `defaultdict(dict)` as association lists with
last-write-wins insertion; Python list indexing (including the silent
negative-index-from-the-end behaviour and `IndexError`) as `pyGet` /
`pySet` over an `Int` index; Python `int(...)` as `pyInt` (sign and
decimal digits, surrounding whitespace stripped; underscore separators of
Python numeric literals are not modelled, no input considered here uses
them); `str.split(' ')` as `splitSpace` (splitting on every single space,
keeping empty fields, exactly like the Python call with an explicit
separator).  The unbounded `while` loop of `TuringMachine.execute` is
embedded with explicit fuel: `executeLoop fuel m acc = none` means the
loop was not finished within `fuel` iterations, `some` is a genuinely
returned result together with the final (mutated) object state.
-/

namespace TuringSim

/-- A Python string: list of characters. -/
abbrev Str := List Char

/-- Auxiliary for `splitSpace`: accumulates the current field (reversed). -/
def splitSpaceAux : Str → Str → List Str
  | [], cur => [cur.reverse]
  | c :: rest, cur =>
      if c = ' ' then cur.reverse :: splitSpaceAux rest []
      else splitSpaceAux rest (c :: cur)

/-- Python `s.split(' ')`: split on every single space character, keeping
empty fields (`"a  b".split(' ') == ['a', '', 'b']`, `"".split(' ') == ['']`). -/
def splitSpace (s : Str) : List Str := splitSpaceAux s []

/-- Whitespace characters stripped by Python `int(...)` (ASCII subset). -/
def isPySpace (c : Char) : Bool :=
  c = ' ' || c = '\t' || c = '\n' || c = '\r'

/-- Strip leading and trailing whitespace. -/
def trimChars (s : Str) : Str :=
  ((s.dropWhile isPySpace).reverse.dropWhile isPySpace).reverse

/-- Value of a digit string, `none` on a non-digit. -/
def digitsAux : Str → Nat → Option Nat
  | [], acc => some acc
  | c :: rest, acc =>
      if c.isDigit then digitsAux rest (acc * 10 + (c.toNat - '0'.toNat))
      else none

/-- Value of a non-empty all-digit string. -/
def digitsToNat : Str → Option Nat
  | [] => none
  | l => digitsAux l 0

/-- Python `int(s)`: strip whitespace, optional sign, decimal digits;
`none` models the `ValueError` raised on anything else. -/
def pyInt (s : Str) : Option Int :=
  match trimChars s with
  | '-' :: rest => (digitsToNat rest).map (fun n => -(n : Int))
  | '+' :: rest => (digitsToNat rest).map (fun n => (n : Int))
  | rest => (digitsToNat rest).map (fun n => (n : Int))

/-- Python `d[k]` lookup in a dict modelled as an association list
(first match; insertion keeps keys unique). -/
def assocFind {α β : Type} [DecidableEq α] : List (α × β) → α → Option β
  | [], _ => none
  | (k, v) :: rest, a => if k = a then some v else assocFind rest a

/-- Python `d[k] = v`: replace the entry if the key is present, else append. -/
def assocInsert {α β : Type} [DecidableEq α] : List (α × β) → α → β → List (α × β)
  | [], a, b => [(a, b)]
  | (k, v) :: rest, a, b =>
      if k = a then (a, b) :: rest else (k, v) :: assocInsert rest a b

/-- `TuringMachine.Action`: the write string (`"*"` means do not write),
the head direction and the new state.  The back-reference
`self.turing_machine` of the Python class is replaced by passing the
machine explicitly to `take_action`. -/
structure Action where
  write : Str
  direction : Int
  new_state : Int
deriving DecidableEq, Repr

/-- The `TuringMachine` object state: head position, current state, halt
state, tracked tape contents (a Python list of strings, one cell per
character of the initial tape) and the action table
(`defaultdict(dict)`: state ↦ read string ↦ action). -/
structure TM where
  head : Int
  state : Int
  halt_state : Int
  tape_contents : List Str
  action_table : List (Int × List (Str × Action))
deriving DecidableEq, Repr

/-- `TuringMachine.__init__`. -/
def initTM : TM :=
  { head := 0, state := 0, halt_state := 0, tape_contents := [], action_table := [] }

/-- Python list read `l[i]`: non-negative indices from the front,
negative indices from the end, `none` models the `IndexError`. -/
def pyGet {α : Type} (l : List α) (i : Int) : Option α :=
  if 0 ≤ i then l.get? i.toNat
  else if -(l.length : Int) ≤ i then l.get? (i + l.length).toNat
  else none

/-- Python list write `l[i] = v`, with the same index semantics. -/
def pySet {α : Type} (l : List α) (i : Int) (v : α) : Option (List α) :=
  if 0 ≤ i then
    if i < (l.length : Int) then some (l.set i.toNat v) else none
  else if -(l.length : Int) ≤ i then some (l.set (i + l.length).toNat v)
  else none

/-- `TuringMachine.Action.take_action`, with the mutation of the machine
made explicit: write the cell (unless the write string is `"*"`), move the
head, prepend a blank on underflow (head reset to 0), append a blank when
the head passes the tracked end, set the new state.  `none` models an
uncaught `IndexError` from the write. -/
def take_action (a : Action) (m : TM) : Option TM :=
  let tape? := if a.write ≠ ['*'] then pySet m.tape_contents m.head a.write
               else some m.tape_contents
  match tape? with
  | none => none
  | some tape =>
      let h := m.head + a.direction
      if h < 0 then
        some { m with tape_contents := ['-'] :: tape, head := 0, state := a.new_state }
      else if (tape.length : Int) ≤ h then
        some { m with tape_contents := tape ++ [['-']], head := h, state := a.new_state }
      else
        some { m with tape_contents := tape, head := h, state := a.new_state }

/-- Outcome of one iteration of the `while` body of `execute`. -/
inductive StepOut where
  | ok (m : TM)
  | noneRes
  | indexError
deriving DecidableEq, Repr

/-- One iteration of the `while` body of `TuringMachine.execute`:
`return None` when the current state is not a key of the action table;
read the cell under the head (Python indexing — `indexError` when it
raises); dispatch the exact entry if present, else the wildcard `"*"`
entry, else `return None`; then take the action. -/
def stepM (m : TM) : StepOut :=
  match assocFind m.action_table m.state with
  | none => .noneRes
  | some inner =>
      match pyGet m.tape_contents m.head with
      | none => .indexError
      | some c =>
          match assocFind inner c with
          | some a =>
              match take_action a m with
              | some m2 => .ok m2
              | none => .indexError
          | none =>
              match assocFind inner ['*'] with
              | some a =>
                  match take_action a m with
                  | some m2 => .ok m2
                  | none => .indexError
              | none => .noneRes

/-- `"".join(self.tape_contents)`. -/
def snapshot (m : TM) : String := String.mk m.tape_contents.flatten

/-- Result of `TuringMachine.execute`: the returned trace, the explicit
`return None`, or an uncaught `IndexError`. -/
inductive ExecResult where
  | trace (t : List String)
  | noneRes
  | indexError
deriving DecidableEq, Repr

/-- The `while self.state != self.halt_state` loop of `execute`, with
fuel; returns the Python return value together with the final object
state.  `none` means the fuel ran out before the loop returned. -/
def executeLoop : Nat → TM → List String → Option (ExecResult × TM)
  | 0, _, _ => none
  | fuel + 1, m, acc =>
      if m.state = m.halt_state then some (.trace acc, m)
      else
        match stepM m with
        | .ok m2 => executeLoop fuel m2 (acc ++ [snapshot m2])
        | .noneRes => some (.noneRes, m)
        | .indexError => some (.indexError, m)

/-- `TuringMachine.execute`: start the trace with the initial snapshot and
run the loop. -/
def execute (m : TM) (fuel : Nat) : Option ExecResult :=
  (executeLoop fuel m [snapshot m]).map Prod.fst

/-- `self.action_table[st][r] = a` on the `defaultdict(dict)`. -/
def registerA (t : List (Int × List (Str × Action))) (st : Int) (r : Str)
    (a : Action) : List (Int × List (Str × Action)) :=
  assocInsert t st (assocInsert ((assocFind t st).getD []) r a)

/-- The transition-line loop of `TuringMachine.read_machine` (lines 5+ of
the description).  Mirrors the Python control flow: split on single
spaces; fewer than 5 fields → `False`; `len(line[1]) > 1` or
`len(line[2]) > 1` → `False` (short-circuit: `int(line[3])` not yet
evaluated); `int(line[3])` failing or `|direction| > 1` → `False`; then
the registration evaluates `int(line[4])` (in the `Action` constructor)
and `int(line[0])` (the subscript), either failing → `False`. -/
def parseActions : TM → List Str → Bool × TM
  | m, [] => (true, m)
  | m, l :: rest =>
      let line := splitSpace l
      if line.length < 5 then (false, m)
      else if 1 < (line.getD 1 []).length then (false, m)
      else if 1 < (line.getD 2 []).length then (false, m)
      else
        match pyInt (line.getD 3 []) with
        | none => (false, m)
        | some d =>
            if 1 < d.natAbs then (false, m)
            else
              match pyInt (line.getD 4 []) with
              | none => (false, m)
              | some ns =>
                  match pyInt (line.getD 0 []) with
                  | none => (false, m)
                  | some st =>
                      parseActions
                        { m with action_table :=
                            (registerA m.action_table st (line.getD 1 [])
                              ⟨line.getD 2 [], d, ns⟩) }
                        rest

/-- `TuringMachine.read_machine`, with the file contents passed as the
list of its lines: returns the success flag together with the (possibly
partially) mutated object state. -/
def read_machine (m : TM) (lines : List Str) : Bool × TM :=
  if lines.length < 4 then (false, m)
  else
    let m := { m with tape_contents := (lines.getD 0 []).map (fun c => [c]) }
    match pyInt (lines.getD 1 []) with
    | none => (false, m)
    | some h =>
        let m := { m with head := h }
        match pyInt (lines.getD 2 []) with
        | none => (false, m)
        | some st =>
            let m := { m with state := st }
            match pyInt (lines.getD 3 []) with
            | none => (false, m)
            | some hs =>
                let m := { m with halt_state := hs }
                parseActions m (lines.drop 4)

/-!
## Scenario machines and validators used by the claims
-/

/-- Scenario A transition table: `(0,'1','0',1,0)` and `(0,'0','*',1,1)`,
registered with the dictionary semantics of `read_machine`. -/
def scAtable : List (Int × List (Str × Action)) :=
  registerA (registerA [] 0 ['1'] ⟨['0'], 1, 0⟩) 0 ['0'] ⟨['*'], 1, 1⟩

/-- Scenario A machine: tape `"101"`, head 0, start state 0, halt state 1. -/
def scAm : TM :=
  { head := 0, state := 0, halt_state := 1,
    tape_contents := [['1'], ['0'], ['1']], action_table := scAtable }

/-- Scenario B machine: tape `"0"`, head 0, start state 0, halt state 9,
single transition `(0,'1','0',1,1)`. -/
def scBm : TM :=
  { head := 0, state := 0, halt_state := 9,
    tape_contents := [['0']], action_table := registerA [] 0 ['1'] ⟨['0'], 1, 1⟩ }

/-- Modelled from the spec's words (claim C2), for comparison with
`read_machine`: at least 4 lines, head/start/halt integers parse, and
every transition line splits into exactly 5 fields with read and write
fields of exactly one character, `|direction| ≤ 1`, and state / new-state
fields parsing as integers.  One transition line of this validator. -/
def specValidLine (l : Str) : Bool :=
  let f := splitSpace l
  decide (f.length = 5) && decide ((f.getD 1 []).length = 1) &&
    decide ((f.getD 2 []).length = 1) &&
    (match pyInt (f.getD 3 []) with
     | some d => decide (d.natAbs ≤ 1)
     | none => false) &&
    (pyInt (f.getD 0 [])).isSome && (pyInt (f.getD 4 [])).isSome

/-- Modelled from the spec's words (claim C2): the full validation rules
the claim says `read_machine` enforces. -/
def specValid (lines : List Str) : Bool :=
  decide (4 ≤ lines.length) && (pyInt (lines.getD 1 [])).isSome &&
    (pyInt (lines.getD 2 [])).isSome && (pyInt (lines.getD 3 [])).isSome &&
    (lines.drop 4).all specValidLine

/-- What the code actually accepts for one transition line: at least 5
single-space-separated fields, read and write fields of length at most
one (the empty field produced by two adjacent spaces is accepted), a
direction parsing with `|direction| ≤ 1`, and state / new-state fields
parsing as integers. -/
def goodLine (l : Str) : Bool :=
  let f := splitSpace l
  !decide (f.length < 5) && !decide (1 < (f.getD 1 []).length) &&
    !decide (1 < (f.getD 2 []).length) &&
    (match pyInt (f.getD 3 []) with
     | some d => !decide (1 < d.natAbs)
     | none => false) &&
    (pyInt (f.getD 4 [])).isSome && (pyInt (f.getD 0 [])).isSome

/-- An input accepted by the code but rejected by the spec's rules: the
transition line `"0  1 0 1 0 x"` splits into the 7 fields
`['0', '', '1', '0', '1', '0', 'x']` — not exactly 5, and with an empty
(zero-character) read field. -/
def c2bad : List Str :=
  [['1'], ['0'], ['0'], ['1'],
   ['0', ' ', ' ', '1', ' ', '0', ' ', '1', ' ', '0', ' ', 'x']]

/-- A well-formed input for the amended claim C2's witness. -/
def c2good : List Str :=
  [['1', '0', '1'], ['0'], ['0'], ['1'],
   ['0', ' ', '1', ' ', '0', ' ', '1', ' ', '0']]

/-- Input for claim C10: tape `"101"` but head start offset `-1`; the
single transition `(0,'1','*',0,1)` reads under the head. -/
def c10lines : List Str :=
  [['1', '0', '1'], ['-', '1'], ['0'], ['1'],
   ['0', ' ', '1', ' ', '*', ' ', '0', ' ', '1']]

/-- The machine `read_machine` builds from `c10lines`. -/
def c10m : TM := (read_machine initTM c10lines).2

/-!
## Claims
-/

/-- Claim C1, counterexample: on the Scenario A machine `execute`
(with ample fuel) returns the trace `["101", "001", "001"]` — after the
second step the head is 2 and the tape length is 3, so no trailing blank
is appended — which differs from the trace `["101", "001", "001-"]`
asserted by the claim. -/
theorem scenarioA_not_claimed_trace :
    execute scAm 10 = some (.trace ["101", "001", "001"]) ∧
    (["101", "001", "001"] : List String) ≠ ["101", "001", "001-"] :=
  ⟨rfl, by decide⟩

/-- Claim C1, amended: for the machine with initial tape `"101"`, head 0,
start state 0, halt state 1 and transitions `(0,'1','0',1,0)`,
`(0,'0','*',1,1)`, `execute` halts and returns exactly the trace
`["101", "001", "001"]`; the second step moves the head to 2, which is
still inside the 3-cell tape, so the tape is not extended. -/
theorem scenarioA_trace : execute scAm 10 = some (.trace ["101", "001", "001"]) :=
  rfl

/-- Claim C7: whenever the current state already equals the halt state,
`execute` performs no step and returns the one-element trace holding only
the initial tape snapshot. -/
theorem immediate_halt (m : TM) (fuel : Nat) (h : m.state = m.halt_state) :
    execute m (fuel + 1) = some (.trace [snapshot m]) := by
  unfold execute executeLoop
  simp [h]

/-- Machine for claim C7's witness: start state 3 equals halt state 3. -/
def c7m : TM :=
  { head := 0, state := 3, halt_state := 3, tape_contents := [['7']], action_table := [] }

/-- Witness for claim C7 at a concrete machine whose start state equals
its halt state: the returned trace is exactly `["7"]`. -/
theorem immediate_halt_witness : execute c7m 1 = some (.trace ["7"]) :=
  immediate_halt c7m 0 rfl

/-- Claim C10: `read_machine` does no range validation of the head start
offset.  On `c10lines` it returns `True` although the parsed head is
`-1`, violating `0 ≤ head < length` before any step; the first tape read
`tape_contents[-1]` nevertheless succeeds under Python index semantics,
silently yielding the last cell `'1'`, and the run completes with trace
`["101", "-101"]`. -/
theorem read_machine_no_head_validation :
    (read_machine initTM c10lines).1 = true ∧
    c10m.head = -1 ∧
    c10m.tape_contents.length = 3 ∧
    ¬ (0 ≤ c10m.head ∧ c10m.head < (c10m.tape_contents.length : Int)) ∧
    pyGet c10m.tape_contents c10m.head = some ['1'] ∧
    pyGet c10m.tape_contents c10m.head = c10m.tape_contents.get? 2 ∧
    execute c10m 10 = some (.trace ["101", "-101"]) :=
  ⟨rfl, rfl, rfl, by decide, rfl, rfl, rfl⟩

/-- The current `(state, symbol)` pair matches no entry: either the
current state is not a key of the action table at all, or the cell read
under the head matches neither an exact entry nor the wildcard `"*"`
entry of the state's inner dictionary. -/
def noMatch (m : TM) : Prop :=
  assocFind m.action_table m.state = none ∨
    ∃ inner c, assocFind m.action_table m.state = some inner ∧
      pyGet m.tape_contents m.head = some c ∧
      assocFind inner c = none ∧ assocFind inner ['*'] = none

/-- A failed lookup makes the loop body return `None`. -/
theorem stepM_noMatch {m : TM} (h : noMatch m) : stepM m = .noneRes := by
  rcases h with h | ⟨inner, c, h1, h2, h3, h4⟩
  · simp [stepM, h]
  · simp [stepM, h1, h2, h3, h4]

/-- Claim C4: whenever the current `(state, symbol)` pair matches neither
an exact entry nor a wildcard entry for the current state — including
when the state has no entries in the table at all — `execute`'s loop
stops and returns `None`, never a trace. -/
theorem no_transition_returns_none (m : TM) (acc : List String) (fuel : Nat)
    (hrun : m.state ≠ m.halt_state) (hfail : noMatch m) :
    (executeLoop (fuel + 1) m acc).map Prod.fst = some .noneRes ∧
    ∀ t, (executeLoop (fuel + 1) m acc).map Prod.fst ≠ some (.trace t) := by
  have hstep := stepM_noMatch hfail
  unfold executeLoop
  rw [if_neg hrun, hstep]
  exact ⟨rfl, fun t h => by simp at h⟩

/-- Witness for claim C4, Scenario B: tape `"0"`, head 0, start 0,
halt 9, single transition `(0,'1','0',1,1)`; reading `'0'` in state 0
matches neither the exact `'1'` entry nor any wildcard, and `execute`
returns `None`. -/
theorem no_transition_returns_none_witness : execute scBm 10 = some .noneRes :=
  (no_transition_returns_none scBm [snapshot scBm] 9 (by decide)
    (Or.inr ⟨[(['1'], ⟨['0'], 1, 1⟩)], ['0'], rfl, rfl, rfl, rfl⟩)).1

/-- Claim C6: a failing step is atomic — when the lookup finds no
applicable entry, the loop returns the `None` result with the final
object state carrying exactly the tape contents, head and current state
it had immediately before that step. -/
theorem failing_step_atomic (m : TM) (acc : List String) (fuel : Nat)
    (hrun : m.state ≠ m.halt_state) (hfail : noMatch m) :
    ∃ mf, executeLoop (fuel + 1) m acc = some (.noneRes, mf) ∧
      mf.tape_contents = m.tape_contents ∧ mf.head = m.head ∧ mf.state = m.state := by
  refine ⟨m, ?_, rfl, rfl, rfl⟩
  have hstep := stepM_noMatch hfail
  unfold executeLoop
  rw [if_neg hrun, hstep]

/-- Machine for claim C6's witness: its current state 3 has no entries in
the action table (which only has keys for state 0). -/
def c6m : TM :=
  { head := 0, state := 3, halt_state := 9,
    tape_contents := [['1']], action_table := registerA [] 0 ['1'] ⟨['0'], 1, 1⟩ }

/-- Witness for claim C6 at a concrete mid-run configuration (non-empty
accumulated trace): the error is returned and tape, head and state are
unchanged. -/
theorem failing_step_atomic_witness :
    ∃ mf, executeLoop 5 c6m ["ab"] = some (.noneRes, mf) ∧
      mf.tape_contents = c6m.tape_contents ∧ mf.head = c6m.head ∧ mf.state = c6m.state :=
  failing_step_atomic c6m ["ab"] 4 (by decide) (Or.inl rfl)

/-- Claim C3: when the inner dictionary of the current state has both an
exact entry for the cell just read and a wildcard `"*"` entry, the loop
body dispatches the exact entry's action — the wildcard entry plays no
part in the step's outcome. -/
theorem wildcard_precedence (m : TM) (inner : List (Str × Action)) (c : Str)
    (actE actW : Action)
    (hI : assocFind m.action_table m.state = some inner)
    (hR : pyGet m.tape_contents m.head = some c)
    (hE : assocFind inner c = some actE)
    (_hW : assocFind inner ['*'] = some actW) :
    stepM m =
      match take_action actE m with
      | some m2 => .ok m2
      | none => .indexError := by
  simp only [stepM, hI, hR, hE]

/-- Machine for claim C3's witness: state 0 has an exact entry for `'a'`
(write `'b'`, stay, go to state 5) and a wildcard entry (write `'c'`,
stay, go to state 6); the head reads `'a'`. -/
def c3m : TM :=
  { head := 0, state := 0, halt_state := 9,
    tape_contents := [['a']],
    action_table :=
      registerA (registerA [] 0 ['a'] ⟨['b'], 0, 5⟩) 0 ['*'] ⟨['c'], 0, 6⟩ }

/-- Witness for claim C3: on `c3m` the step rewrites the cell to `'b'`
and moves to state 5 (the exact entry), not `'c'` / state 6 (the
wildcard entry). -/
theorem wildcard_precedence_witness :
    stepM c3m = .ok { head := 0, state := 5, halt_state := 9,
                      tape_contents := [['b']],
                      action_table := c3m.action_table } :=
  wildcard_precedence c3m [(['a'], ⟨['b'], 0, 5⟩), (['*'], ⟨['c'], 0, 6⟩)]
    ['a'] ⟨['b'], 0, 5⟩ ⟨['c'], 0, 6⟩ rfl rfl rfl rfl

/-- `pySet` at an in-bounds non-negative index writes the cell. -/
theorem pySet_inbounds {α : Type} {l : List α} {i : Int} {v : α}
    (h0 : 0 ≤ i) (h1 : i < (l.length : Int)) :
    pySet l i v = some (l.set i.toNat v) := by
  unfold pySet
  rw [if_pos h0, if_pos h1]

/-- Claim C8: an action whose write field is the `"*"` sentinel leaves
the cell at the pre-move head position unchanged while still applying the
head move (with blank-prepending underflow handling) and the transition
to the action's new state. -/
theorem no_write_semantics (m : TM) (a : Action) (m2 : TM)
    (hw : a.write = ['*'])
    (h0 : 0 ≤ m.head) (h1 : m.head < (m.tape_contents.length : Int))
    (hs : take_action a m = some m2) :
    m2.state = a.new_state ∧
    (if m.head + a.direction < 0 then
        m2.head = 0 ∧
        m2.tape_contents.get? (m.head.toNat + 1) = m.tape_contents.get? m.head.toNat
      else
        m2.head = m.head + a.direction ∧
        m2.tape_contents.get? m.head.toNat = m.tape_contents.get? m.head.toNat) := by
  simp only [take_action, hw, ne_eq, not_true_eq_false, if_false, ite_false] at hs
  split at hs
  · next hlt =>
      cases hs
      rw [if_pos hlt]
      exact ⟨rfl, rfl, List.get?_cons_succ ..⟩
  · next hlt =>
      split at hs
      · next hge =>
          cases hs
          rw [if_neg hlt]
          refine ⟨rfl, rfl, ?_⟩
          exact List.get?_append (by omega)
      · next hge =>
          cases hs
          rw [if_neg hlt]
          exact ⟨rfl, rfl, rfl⟩

/-- Machine and action for claim C8's witness: a no-write action moving
right from head 0 into state 4. -/
def c8m : TM :=
  { head := 0, state := 0, halt_state := 9,
    tape_contents := [['x'], ['y']], action_table := [] }

/-- The no-write action of claim C8's witness. -/
def c8a : Action := { write := ['*'], direction := 1, new_state := 4 }

/-- The state after taking `c8a` on `c8m`. -/
def c8m2 : TM :=
  { head := 1, state := 4, halt_state := 9,
    tape_contents := [['x'], ['y']], action_table := [] }

/-- Witness for claim C8: the cell at the pre-move head position keeps
its symbol while the move to head 1 and the transition to state 4 are
applied. -/
theorem no_write_semantics_witness :
    c8m2.state = 4 ∧
    (if c8m.head + c8a.direction < 0 then
        c8m2.head = 0 ∧
        c8m2.tape_contents.get? (c8m.head.toNat + 1) = c8m.tape_contents.get? c8m.head.toNat
      else
        c8m2.head = c8m.head + c8a.direction ∧
        c8m2.tape_contents.get? c8m.head.toNat = c8m.tape_contents.get? c8m.head.toNat) :=
  no_write_semantics c8m c8a c8m2 rfl (by decide) (by decide) rfl

/-- Claim C9: an action with direction `-1` taken at head 0 prepends a
blank to the tape contents (as they stand after the action's write, which
the code performs before the move), resets the head to 0, and shifts
every cell one index to the right: the cell that was at index 0 is found
at index 1 afterwards. -/
theorem underflow_growth (m : TM) (a : Action) (m2 : TM)
    (hd : a.direction = -1) (hh : m.head = 0)
    (hs : take_action a m = some m2) :
    m2.head = 0 ∧
    m2.tape_contents =
      ['-'] :: (if a.write = ['*'] then m.tape_contents
                else m.tape_contents.set 0 a.write) ∧
    ∀ i, m2.tape_contents.get? (i + 1) =
      (if a.write = ['*'] then m.tape_contents
       else m.tape_contents.set 0 a.write).get? i := by
  by_cases hw : a.write = ['*']
  · simp only [take_action, hw, ne_eq, not_true_eq_false, if_false, ite_false,
      hh, hd] at hs
    norm_num at hs
    cases hs
    rw [if_pos hw]
    exact ⟨rfl, rfl, fun i => rfl⟩
  · cases htape : m.tape_contents with
    | nil =>
        exfalso
        simp [take_action, hw, htape, pySet, hh] at hs
    | cons x xs =>
        have hset : pySet m.tape_contents (0 : Int) a.write =
            some (m.tape_contents.set 0 a.write) :=
          pySet_inbounds le_rfl (by rw [htape]; simp)
        simp only [take_action, hw, ne_eq, not_false_eq_true, if_true, ite_true,
          hh, hset, hd] at hs
        norm_num at hs
        cases hs
        rw [if_neg hw]
        refine ⟨rfl, by rw [htape], fun i => ?_⟩
        rw [htape]
        exact List.get?_cons_succ ..

/-- Machine and action for claim C9's witness: a writing action moving
left from head 0. -/
def c9m : TM :=
  { head := 0, state := 0, halt_state := 9,
    tape_contents := [['p'], ['q']], action_table := [] }

/-- The left-moving action of claim C9's witness. -/
def c9a : Action := { write := ['w'], direction := -1, new_state := 2 }

/-- The state after taking `c9a` on `c9m`. -/
def c9m2 : TM :=
  { head := 0, state := 2, halt_state := 9,
    tape_contents := [['-'], ['w'], ['q']], action_table := [] }

/-- Witness for claim C9: the blank is prepended, the head is 0 again and
the written cell previously at index 0 is found at index 1. -/
theorem underflow_growth_witness :
    c9m2.head = 0 ∧
    c9m2.tape_contents = ['-'] :: c9m.tape_contents.set 0 ['w'] ∧
    c9m2.tape_contents.get? 1 = (c9m.tape_contents.set 0 ['w']).get? 0 := by
  have h := underflow_growth c9m c9a c9m2 rfl rfl rfl
  exact ⟨h.1, h.2.1, h.2.2 0⟩

/-- A successful `assocFind` returns a pair of the list. -/
theorem assocFind_mem {α β : Type} [DecidableEq α] :
    ∀ {l : List (α × β)} {a : α} {b : β}, assocFind l a = some b → (a, b) ∈ l := by
  intro l
  induction l with
  | nil => intro a b h; simp [assocFind] at h
  | cons p rest ih =>
      obtain ⟨k, v⟩ := p
      intro a b h
      rw [assocFind] at h
      split at h
      · next heq =>
          cases h
          subst heq
          exact List.mem_cons_self _ _
      · exact List.mem_cons_of_mem _ (ih h)

/-- Every action registered in the table has `|direction| ≤ 1` (what
`read_machine`'s validation guarantees for loaded machines, and what
makes a configuration reachable). -/
def tableOK (t : List (Int × List (Str × Action))) : Bool :=
  t.all fun p => p.2.all fun q => q.2.direction.natAbs ≤ 1

/-- An action found through the two dictionary lookups of a `tableOK`
table has `|direction| ≤ 1`. -/
theorem tableOK_find {t : List (Int × List (Str × Action))}
    (hT : tableOK t = true) {s : Int} {inner : List (Str × Action)} {r : Str}
    {a : Action} (h1 : assocFind t s = some inner)
    (h2 : assocFind inner r = some a) : a.direction.natAbs ≤ 1 := by
  have m1 := assocFind_mem h1
  have m2 := assocFind_mem h2
  rw [tableOK, List.all_eq_true] at hT
  have := hT _ m1
  rw [List.all_eq_true] at this
  have := this _ m2
  exact of_decide_eq_true this

/-- `take_action` with a direction of absolute value at most 1 keeps the
head inside the tracked tape, never shrinks the tape, and leaves the
action table and halt state untouched. -/
theorem take_action_bounds (a : Action) (m m2 : TM)
    (hd : a.direction.natAbs ≤ 1)
    (h0 : 0 ≤ m.head) (h1 : m.head < (m.tape_contents.length : Int))
    (hs : take_action a m = some m2) :
    0 ≤ m2.head ∧ m2.head < (m2.tape_contents.length : Int) ∧
    m.tape_contents.length ≤ m2.tape_contents.length ∧
    m2.action_table = m.action_table ∧ m2.halt_state = m.halt_state := by
  have hd2 : -1 ≤ a.direction ∧ a.direction ≤ 1 := by omega
  unfold take_action at hs
  have htape : ∃ tape, (if a.write ≠ ['*'] then pySet m.tape_contents m.head a.write
      else some m.tape_contents) = some tape ∧ tape.length = m.tape_contents.length := by
    split
    · exact ⟨_, pySet_inbounds h0 h1, List.length_set _ _ _⟩
    · exact ⟨_, rfl, rfl⟩
  obtain ⟨tape, htp, hlen⟩ := htape
  rw [htp] at hs
  simp only at hs
  split at hs
  · next hlt =>
      cases hs
      refine ⟨le_refl 0, ?_, ?_, rfl, rfl⟩
      · show (0 : Int) < ((['-'] :: tape).length : Int)
        simp only [List.length_cons]
        omega
      · show m.tape_contents.length ≤ (['-'] :: tape).length
        simp only [List.length_cons]
        omega
  · next hlt =>
      split at hs
      · next hge =>
          cases hs
          refine ⟨?_, ?_, ?_, rfl, rfl⟩
          · show (0 : Int) ≤ m.head + a.direction
            omega
          · show m.head + a.direction < (((tape ++ [['-']]).length : Nat) : Int)
            simp only [List.length_append, List.length_cons, List.length_nil]
            omega
          · show m.tape_contents.length ≤ (tape ++ [['-']]).length
            simp only [List.length_append, List.length_cons, List.length_nil]
            omega
      · next hge =>
          cases hs
          refine ⟨?_, ?_, ?_, rfl, rfl⟩
          · show (0 : Int) ≤ m.head + a.direction
            omega
          · show m.head + a.direction < ((tape.length : Nat) : Int)
            omega
          · show m.tape_contents.length ≤ tape.length
            omega

/-- A successful loop iteration on a `tableOK` machine preserves the head
bounds, never shrinks the tape, and keeps the table and halt state. -/
theorem step_bounds (m m2 : TM)
    (hT : tableOK m.action_table = true)
    (h0 : 0 ≤ m.head) (h1 : m.head < (m.tape_contents.length : Int))
    (hs : stepM m = .ok m2) :
    0 ≤ m2.head ∧ m2.head < (m2.tape_contents.length : Int) ∧
    m.tape_contents.length ≤ m2.tape_contents.length ∧
    m2.action_table = m.action_table ∧ m2.halt_state = m.halt_state := by
  unfold stepM at hs
  split at hs
  · exact absurd hs (by simp)
  next inner hI =>
    split at hs
    · exact absurd hs (by simp)
    next c hR =>
      split at hs
      next a hE =>
        split at hs
        next mm hta =>
          cases hs
          exact take_action_bounds a m _ (tableOK_find hT hI hE) h0 h1 hta
        next hta => exact absurd hs (by simp)
      next hE =>
        split at hs
        next a hW =>
          split at hs
          next mm hta =>
            cases hs
            exact take_action_bounds a m _ (tableOK_find hT hI hW) h0 h1 hta
          next hta => exact absurd hs (by simp)
        next hW => exact absurd hs (by simp)

/-- The whole loop on a `tableOK` machine preserves the head bounds and
never shrinks the tape, whichever way it returns. -/
theorem loop_bounds :
    ∀ (fuel : Nat) (m : TM) (acc : List String) (r : ExecResult) (mf : TM),
      tableOK m.action_table = true →
      0 ≤ m.head → m.head < (m.tape_contents.length : Int) →
      executeLoop fuel m acc = some (r, mf) →
      0 ≤ mf.head ∧ mf.head < (mf.tape_contents.length : Int) ∧
      m.tape_contents.length ≤ mf.tape_contents.length := by
  intro fuel
  induction fuel with
  | zero =>
      intro m acc r mf _ _ _ h
      exact absurd h (by simp [executeLoop])
  | succ n ih =>
      intro m acc r mf hT h0 h1 hrun
      unfold executeLoop at hrun
      by_cases hh : m.state = m.halt_state
      · rw [if_pos hh] at hrun
        cases hrun
        exact ⟨h0, h1, le_refl _⟩
      · rw [if_neg hh] at hrun
        rcases hstep : stepM m with m2 | _ | _ <;> rw [hstep] at hrun
        · have hb := step_bounds m m2 hT h0 h1 hstep
          have hrec := ih m2 (acc ++ [snapshot m2]) r mf
            (by rw [hb.2.2.2.1]; exact hT) hb.1 hb.2.1 hrun
          exact ⟨hrec.1, hrec.2.1, le_trans hb.2.2.1 hrec.2.2⟩
        · cases hrun
          exact ⟨h0, h1, le_refl _⟩
        · cases hrun
          exact ⟨h0, h1, le_refl _⟩

/-- Claim C5: on a machine whose table only holds directions of absolute
value at most 1 (which `read_machine`'s validation guarantees for every
loaded machine), if `0 ≤ head < length tape_contents` holds then it still
holds after every loop iteration, and the length of `tape_contents` never
decreases across the run. -/
theorem bounds_invariant (m : TM)
    (hT : tableOK m.action_table = true)
    (h0 : 0 ≤ m.head) (h1 : m.head < (m.tape_contents.length : Int)) :
    (∀ m2, stepM m = .ok m2 →
      0 ≤ m2.head ∧ m2.head < (m2.tape_contents.length : Int) ∧
      m.tape_contents.length ≤ m2.tape_contents.length) ∧
    (∀ fuel acc r mf, executeLoop fuel m acc = some (r, mf) →
      0 ≤ mf.head ∧ mf.head < (mf.tape_contents.length : Int) ∧
      m.tape_contents.length ≤ mf.tape_contents.length) := by
  constructor
  · intro m2 hs
    have h := step_bounds m m2 hT h0 h1 hs
    exact ⟨h.1, h.2.1, h.2.2.1⟩
  · intro fuel acc r mf hrun
    exact loop_bounds fuel m acc r mf hT h0 h1 hrun

/-- The final state of the Scenario A run, for claim C5's witness. -/
def c5mf : TM :=
  { head := 2, state := 1, halt_state := 1,
    tape_contents := [['0'], ['0'], ['1']], action_table := scAtable }

/-- Witness for claim C5: the Scenario A run ends with the head in
bounds and a tape no shorter than the initial one. -/
theorem bounds_invariant_witness :
    0 ≤ c5mf.head ∧ c5mf.head < (c5mf.tape_contents.length : Int) ∧
    scAm.tape_contents.length ≤ c5mf.tape_contents.length :=
  (bounds_invariant scAm (by decide) (by decide) (by decide)).2
    10 [snapshot scAm] (.trace ["101", "001", "001"]) c5mf rfl

/-- The transition-line loop succeeds exactly on lines the code accepts:
`goodLine` for every line, independent of the machine it started from. -/
theorem parseActions_fst : ∀ (rest : List Str) (m : TM),
    (parseActions m rest).1 = rest.all goodLine := by
  intro rest
  induction rest with
  | nil => intro m; rfl
  | cons l rest ih =>
      intro m
      simp only [parseActions, List.all_cons]
      split
      · next h5 =>
          rw [show goodLine l = false from by
              simp only [goodLine, h5, decide_True, Bool.not_true, Bool.false_and],
            Bool.false_and]
      · next h5 =>
          split
          · next h1 =>
              rw [show goodLine l = false from by
                  simp only [goodLine, h1, decide_True, Bool.not_true,
                    Bool.false_and, Bool.and_false],
                Bool.false_and]
          · next h1 =>
              split
              · next h2 =>
                  rw [show goodLine l = false from by
                      simp only [goodLine, h2, decide_True, Bool.not_true,
                        Bool.false_and, Bool.and_false],
                    Bool.false_and]
              · next h2 =>
                  split
                  · next hm3 =>
                      rw [show goodLine l = false from by
                          simp only [goodLine, hm3, Bool.false_and, Bool.and_false],
                        Bool.false_and]
                  · next d hm3 =>
                      split
                      · next hd =>
                          rw [show goodLine l = false from by
                              simp only [goodLine, hm3, hd, decide_True, Bool.not_true,
                                Bool.false_and, Bool.and_false],
                            Bool.false_and]
                      · next hd =>
                          split
                          · next hm4 =>
                              rw [show goodLine l = false from by
                                  simp only [goodLine, hm4, Option.isSome_none,
                                    Bool.false_and, Bool.and_false],
                                Bool.false_and]
                          · next ns hm4 =>
                              split
                              · next hm0 =>
                                  rw [show goodLine l = false from by
                                      simp only [goodLine, hm0, Option.isSome_none,
                                        Bool.false_and, Bool.and_false],
                                    Bool.false_and]
                              · next st hm0 =>
                                  rw [ih,
                                    show goodLine l = true from by
                                      simp only [goodLine, h5, h1, h2, hm3, hd, hm4, hm0,
                                        decide_False, Bool.not_false, Option.isSome_some,
                                        Bool.and_true, Bool.true_and, Bool.and_self],
                                    Bool.true_and]

/-- Claim C2, counterexample: the description whose transition line is
`"0  1 0 1 0 x"` is accepted by `read_machine` (it returns `True`),
although that line splits into 7 fields — not exactly 5 — and its read
field is the empty string — not exactly one character — so the claimed
validation rules reject it. -/
theorem read_machine_accepts_invalid :
    (read_machine initTM c2bad).1 = true ∧ specValid c2bad = false ∧
    (splitSpace (c2bad.getD 4 [])).length = 7 ∧
    ((splitSpace (c2bad.getD 4 [])).getD 1 []).length = 0 :=
  ⟨rfl, rfl, rfl, rfl⟩

/-- Claim C2, amended: `read_machine` returns `True` exactly when the
description has at least 4 lines, the head / start-state / halt-state
integer fields parse, and every transition line — split on single space
characters — has at least 5 fields (extra fields beyond the fifth are
ignored), read and write fields of length at most one (an empty field is
accepted), a direction field parsing with absolute value at most 1, and
state and new-state fields that parse as integers; on every other input
it returns `False`. -/
theorem read_machine_true_iff (m : TM) (lines : List Str) :
    (read_machine m lines).1 = true ↔
      4 ≤ lines.length ∧ (pyInt (lines.getD 1 [])).isSome = true ∧
      (pyInt (lines.getD 2 [])).isSome = true ∧
      (pyInt (lines.getD 3 [])).isSome = true ∧
      (lines.drop 4).all goodLine = true := by
  unfold read_machine
  by_cases h4 : lines.length < 4
  · rw [if_pos h4]
    simp only [show (false = true) = False from by simp, false_iff]
    intro h
    omega
  · rw [if_neg h4]
    have h4' : 4 ≤ lines.length := by omega
    rcases hm1 : pyInt (lines.getD 1 []) with _ | v1
    · simp [hm1]
    rcases hm2 : pyInt (lines.getD 2 []) with _ | v2
    · simp [hm2]
    rcases hm3 : pyInt (lines.getD 3 []) with _ | v3
    · simp [hm3]
    simp [parseActions_fst, hm1, hm2, hm3, h4']

/-- Witness for the amended claim C2: a well-formed 5-field description
is accepted. -/
theorem read_machine_true_iff_witness : (read_machine initTM c2good).1 = true :=
  (read_machine_true_iff initTM c2good).mpr (by decide)

/-!
## Supporting facts

`read_machine` can only build `tableOK` tables — every configuration of a
loaded machine satisfies the hypothesis of the bounds invariant — and
`executeLoop` is fuel-monotone, so a result observed at one fuel is the
result at every larger fuel.
-/

/-- Every entry of `assocInsert l a b` is an entry of `l` or the inserted
pair. -/
theorem mem_assocInsert {α β : Type} [DecidableEq α] :
    ∀ {l : List (α × β)} {a : α} {b : β} {x : α × β},
      x ∈ assocInsert l a b → x ∈ l ∨ x = (a, b) := by
  intro l
  induction l with
  | nil =>
      intro a b x h
      rw [assocInsert] at h
      exact Or.inr (List.mem_singleton.mp h)
  | cons p rest ih =>
      obtain ⟨k, v⟩ := p
      intro a b x h
      rw [assocInsert] at h
      split at h
      · rcases List.mem_cons.mp h with h | h
        · exact Or.inr h
        · exact Or.inl (List.mem_cons_of_mem _ h)
      · rcases List.mem_cons.mp h with h | h
        · exact Or.inl (h ▸ List.mem_cons_self _ _)
        · rcases ih h with h | h
          · exact Or.inl (List.mem_cons_of_mem _ h)
          · exact Or.inr h

/-- Registering an action with `|direction| ≤ 1` preserves `tableOK`. -/
theorem tableOK_registerA {t : List (Int × List (Str × Action))} (st : Int)
    (r : Str) {a : Action} (hT : tableOK t = true)
    (ha : a.direction.natAbs ≤ 1) : tableOK (registerA t st r a) = true := by
  rw [tableOK, List.all_eq_true]
  intro p hp
  rw [List.all_eq_true]
  intro q hq
  rcases mem_assocInsert hp with hp | rfl
  · rw [tableOK, List.all_eq_true] at hT
    have h := hT p hp
    rw [List.all_eq_true] at h
    exact h q hq
  · rcases mem_assocInsert hq with hq | rfl
    · rcases hf : assocFind t st with _ | inner0
      · rw [hf] at hq
        simp at hq
      · rw [hf] at hq
        simp only [Option.getD_some] at hq
        rw [tableOK, List.all_eq_true] at hT
        have h := hT _ (assocFind_mem hf)
        rw [List.all_eq_true] at h
        exact h q hq
    · exact decide_eq_true ha

/-- The transition-line loop preserves `tableOK`: the direction bound is
checked before every registration. -/
theorem parseActions_tableOK : ∀ (rest : List Str) (m : TM),
    tableOK m.action_table = true →
    tableOK (parseActions m rest).2.action_table = true := by
  intro rest
  induction rest with
  | nil => intro m hT; exact hT
  | cons l rest ih =>
      intro m hT
      rw [parseActions]
      split
      · exact hT
      split
      · exact hT
      split
      · exact hT
      split
      · exact hT
      next d hm3 =>
        split
        · exact hT
        next hd =>
          split
          · exact hT
          split
          · exact hT
          exact ih _ (tableOK_registerA _ _ hT (show d.natAbs ≤ 1 by omega))

/-- Starting from a `tableOK` table (such as the empty one of `initTM`),
`read_machine` can only produce a `tableOK` table: every action it
registers passed the `|direction| ≤ 1` check.  This discharges, for every
loaded machine, the hypothesis of the bounds invariant. -/
theorem read_machine_tableOK (m : TM) (lines : List Str)
    (hT : tableOK m.action_table = true) :
    tableOK ((read_machine m lines).2.action_table) = true := by
  unfold read_machine
  by_cases h4 : lines.length < 4
  · rw [if_pos h4]
    exact hT
  · rw [if_neg h4]
    rcases hm1 : pyInt (lines.getD 1 []) with _ | v1
    · exact hT
    rcases hm2 : pyInt (lines.getD 2 []) with _ | v2
    · exact hT
    rcases hm3 : pyInt (lines.getD 3 []) with _ | v3
    · exact hT
    exact parseActions_tableOK _ _ hT

/-- `executeLoop` is fuel-monotone: a returned result (as opposed to
running out of fuel) is the result at every larger fuel, so the runs
observed at a fixed ample fuel determine the machine's behaviour. -/
theorem executeLoop_mono : ∀ (fuel fuel2 : Nat) (m : TM) (acc : List String)
    (r : ExecResult × TM), fuel ≤ fuel2 →
    executeLoop fuel m acc = some r → executeLoop fuel2 m acc = some r := by
  intro fuel
  induction fuel with
  | zero =>
      intro fuel2 m acc r _ h
      exact absurd h (by simp [executeLoop])
  | succ n ih =>
      intro fuel2 m acc r hle h
      obtain ⟨k, rfl⟩ : ∃ k, fuel2 = k + 1 := ⟨fuel2 - 1, by omega⟩
      rw [executeLoop] at h ⊢
      by_cases hh : m.state = m.halt_state
      · rw [if_pos hh] at h ⊢
        exact h
      · rw [if_neg hh] at h ⊢
        rcases hstep : stepM m with m2 | _ | _ <;> rw [hstep] at h
        · exact ih k m2 _ r (by omega) h
        · exact h
        · exact h

/-- Fuel-monotonicity carried over to `execute`. -/
theorem execute_mono (m : TM) (fuel fuel2 : Nat) (hle : fuel ≤ fuel2)
    {r : ExecResult} (he : execute m fuel = some r) :
    execute m fuel2 = some r := by
  unfold execute at he ⊢
  rcases hx : executeLoop fuel m [snapshot m] with _ | p
  · rw [hx] at he
    exact absurd he (by simp)
  · rw [hx] at he
    rw [executeLoop_mono fuel fuel2 m [snapshot m] p hle hx]
    exact he

end TuringSim
